import Mathlib

/-
Shallow embedding of the core game-simulation engine of bombman.py
(classes Positionable, Player, Bomb, Map, PlaySetup and the action
constants of PlayerKeyMaps).

Modelling conventions:
- Python float positions and speeds are modelled exactly over the rationals.
- Millisecond counters (dt, state_time, time_of_existence, explodes_in)
  are natural numbers.
- Player numbers are integers (the input boundary uses -1 for
  session-global actions).
- bombs_left is an integer so that its nonnegativity is a provable
  invariant rather than a typing artifact.
- The Bomb.player back-reference of the source is modelled as the owning
  player number; in a constructed map the player numbers are the distinct
  slot indices, so crediting by number is crediting that player.
-/

/-- The three tile kinds of Map.TILE_FLOOR, TILE_BLOCK, TILE_WALL. -/
inductive Tile where
  | floor
  | block
  | wall
deriving DecidableEq, Repr

/-- The action constants of PlayerKeyMaps (ACTION_UP .. ACTION_MENU). -/
inductive InputAction where
  | up
  | right
  | down
  | left
  | bomb
  | special
  | menu
deriving DecidableEq, Repr

/-- The nine player states STATE_IDLE_UP .. STATE_DEAD of class Player. -/
inductive PState where
  | idleUp
  | idleRight
  | idleDown
  | idleLeft
  | walkingUp
  | walkingRight
  | walkingDown
  | walkingLeft
  | dead
deriving DecidableEq, Repr

/-- Class Player of bombman.py (the simulation-relevant fields). -/
structure Player where
  number : ℤ
  team_color : ℕ
  state : PState
  state_time : ℕ
  speed : ℚ
  bombs_left : ℤ
  position : ℚ × ℚ
deriving DecidableEq, Repr

/-- Player.__init__: number 0, white team color, idle-down state,
zero state time, INITIAL_SPEED 3, 5 bombs, position (0, 0) from
Positionable.__init__. -/
def Player.init : Player :=
  { number := 0, team_color := 0, state := PState.idleDown, state_time := 0,
    speed := 3, bombs_left := 5, position := (0, 0) }

/-- Class Bomb of bombman.py.  The player back-reference is modelled by
the owning player number. -/
structure Bomb where
  position : ℚ × ℚ
  time_of_existence : ℕ
  explodes_in : ℕ
  owner : ℤ
deriving DecidableEq, Repr

/-- Positionable.move_to_tile_center: floor both coordinates and add 0.5. -/
def tileCenter (pos : ℚ × ℚ) : ℚ × ℚ :=
  ((⌊pos.1⌋ : ℚ) + 1/2, (⌊pos.2⌋ : ℚ) + 1/2)

/-- Class Map of bombman.py: the tile grid, the players and the live
bombs (the cosmetic environment_name and the players_by_numbers view are
not needed by any claim). -/
structure GameMap where
  tiles : List (List Tile)
  players : List Player
  bombs : List Bomb
deriving DecidableEq, Repr

/-- Map.tile_has_bomb: some live bomb shares the floor-tile of the given
coordinates. -/
def GameMap.tile_has_bomb (m : GameMap) (pos : ℚ × ℚ) : Bool :=
  m.bombs.any fun b =>
    decide (⌊pos.1⌋ = ⌊b.position.1⌋) && decide (⌊pos.2⌋ = ⌊b.position.2⌋)

/-- Map.add_bomb: append to the live bomb list. -/
def GameMap.add_bomb (m : GameMap) (b : Bomb) : GameMap :=
  { m with bombs := m.bombs ++ [b] }

/-- Player.bomb_exploded applied through the owner number: every player
with the given number gets its bomb budget credited by one.  In a
constructed map the numbers are distinct slot indices, so exactly the
owning player is credited. -/
def creditPlayer (n : ℤ) (ps : List Player) : List Player :=
  ps.map fun p => if p.number = n then { p with bombs_left := p.bombs_left + 1 } else p

/-- The body of the while loop of Map.update: walk the bomb list from the
front, add dt to each bomb, drop a bomb (and credit its owner) exactly
when its time of existence now exceeds its fuse, keep it otherwise.  In
the source the index is advanced only when the bomb is kept and
list.remove drops the current object (distinct Bomb objects are never
equal in Python), which is exactly this front-to-back traversal. -/
def updateBombs (dt : ℕ) : List Bomb → List Player → List Bomb × List Player
  | [], ps => ([], ps)
  | b :: rest, ps =>
    let b2 : Bomb := { b with time_of_existence := b.time_of_existence + dt }
    if b2.explodes_in < b2.time_of_existence then
      updateBombs dt rest (creditPlayer b2.owner ps)
    else
      ((b2 :: (updateBombs dt rest ps).1), (updateBombs dt rest ps).2)

/-- Map.update. -/
def GameMap.update (m : GameMap) (dt : ℕ) : GameMap :=
  { m with bombs := (updateBombs dt m.bombs m.players).1,
           players := (updateBombs dt m.bombs m.players).2 }

/-- The state-collapse if/elif chain at the start of
Player.react_to_inputs: any walking state falls back to the matching
idle state; the final else sends everything remaining (idle-left,
walking-left and dead) to idle-left. -/
def collapse : PState → PState
  | PState.walkingUp => PState.idleUp
  | PState.idleUp => PState.idleUp
  | PState.walkingRight => PState.idleRight
  | PState.idleRight => PState.idleRight
  | PState.walkingDown => PState.idleDown
  | PState.idleDown => PState.idleDown
  | _ => PState.idleLeft

/-- The bomb created in Player.react_to_inputs: placed at the player
position snapped to the tile center, fresh timer, 3000 ms fuse
(Bomb.__init__), owned by the placing player. -/
def newBomb (p : Player) : Bomb :=
  { position := tileCenter p.position, time_of_existence := 0,
    explodes_in := 3000, owner := p.number }

/-- One iteration of the input-action loop of Player.react_to_inputs.
The loop state is the player, the moved flag and the map.  Actions for a
different player number are skipped; at most one directional action
fires thanks to the moved flag; a bomb action is honored when the
player has budget and the current tile has no live bomb. -/
def reactStep (dist : ℚ) (s : Player × Bool × GameMap) (item : ℤ × InputAction) :
    Player × Bool × GameMap :=
  let p := s.1
  let moved := s.2.1
  let m := s.2.2
  if item.1 ≠ p.number then s
  else
    let act := item.2
    let pm : Player × Bool :=
      if moved = false ∧ act = InputAction.up then
        ({ p with position := (p.position.1, p.position.2 - dist),
                  state := PState.walkingUp }, true)
      else if moved = false ∧ act = InputAction.down then
        ({ p with position := (p.position.1, p.position.2 + dist),
                  state := PState.walkingDown }, true)
      else if moved = false ∧ act = InputAction.right then
        ({ p with position := (p.position.1 + dist, p.position.2),
                  state := PState.walkingRight }, true)
      else if moved = false ∧ act = InputAction.left then
        ({ p with position := (p.position.1 - dist, p.position.2),
                  state := PState.walkingLeft }, true)
      else (p, moved)
    let p2 := pm.1
    if act = InputAction.bomb ∧ 1 ≤ p2.bombs_left ∧
        m.tile_has_bomb p2.position = false then
      ({ p2 with bombs_left := p2.bombs_left - 1 }, pm.2, m.add_bomb (newBomb p2))
    else (p2, pm.2, m)

/-- Player.react_to_inputs: collapse the state, run the action loop,
then accumulate or reset state_time depending on whether the state at
the start of the call survived. -/
def Player.react_to_inputs (p : Player) (input_actions : List (ℤ × InputAction))
    (dt : ℕ) (m : GameMap) : Player × GameMap :=
  let dist := (dt : ℚ) / 1000 * p.speed
  let old_state := p.state
  let start : Player := { p with state := collapse p.state }
  let r := input_actions.foldl (reactStep dist) (start, false, m)
  let p2 := r.1
  let p3 := if old_state = p2.state then { p2 with state_time := p2.state_time + dt }
            else { p2 with state_time := 0 }
  (p3, r.2.2)

/-- char-to-tile mapping of the Map.__init__ loop: x is a block, # is a
wall, everything else is floor. -/
def tileOfChar (c : Char) : Tile :=
  if c = 'x' then Tile.block else if c = '#' then Tile.wall else Tile.floor

/-- int(tile_character) for a digit character. -/
def digitOf (c : Char) : ℕ := c.toNat - 48

/-- self.tiles[-1].append(tile): append one tile to the last row.  The
empty-grid case never arises in Map.__init__ because the very first
character opens a row. -/
def appendLast : List (List Tile) → Tile → List (List Tile)
  | [], _ => []
  | [r], t => [r ++ [t]]
  | r :: rest, t => r :: appendLast rest t

/-- The mutable locals of the tile loop of Map.__init__: the growing
grid, the ten starting positions, and the line and column counters. -/
structure InitState where
  tiles : List (List Tile)
  spos : List (ℚ × ℚ)
  line : ℤ
  column : ℕ
deriving DecidableEq, Repr

/-- One iteration of the tile loop of Map.__init__ at character index i:
open a new row whenever i is a multiple of MAP_WIDTH = 15, append the
decoded tile to the last row, and record (column, line) as the starting
position of the player named by a digit character. -/
def initStep (st : InitState) (ic : ℕ × Char) : InitState :=
  let st1 : InitState :=
    if ic.1 % 15 = 0 then
      { tiles := st.tiles ++ [[]], spos := st.spos, line := st.line + 1, column := 0 }
    else st
  let tiles2 := appendLast st1.tiles (tileOfChar ic.2)
  let spos2 :=
    if ic.2.isDigit then
      st1.spos.set (digitOf ic.2) ((st1.column : ℚ), (st1.line : ℚ))
    else st1.spos
  { tiles := tiles2, spos := spos2, line := st1.line, column := st1.column + 1 }

/-- The player-construction loop of Map.__init__: one player per
occupied slot, numbered by its slot index, standing at the center of its
starting tile, with the Player.__init__ defaults otherwise. -/
def playersFrom (sp : List (ℚ × ℚ)) (slots : List (Option (ℤ × ℕ))) : List Player :=
  slots.enum.filterMap fun q =>
    q.2.map fun _ =>
      { number := (q.1 : ℤ), team_color := 0, state := PState.idleDown,
        state_time := 0, speed := 3, bombs_left := 5,
        position := ((sp.getD q.1 (0, 0)).1 + 1/2, (sp.getD q.1 (0, 0)).2 + 1/2) }

/-- Map.__init__ on the whitespace-stripped tile section of the map
string (string_split[3]) and the play-setup slots: run the tile loop
over the indexed characters starting from an empty grid, line -1 and the
ten default starting positions, then build the players and an empty
bomb list. -/
def mapInit (s : List Char) (slots : List (Option (ℤ × ℕ))) : GameMap :=
  let st := s.enum.foldl initStep
    { tiles := [], spos := List.replicate 10 ((0 : ℚ), (0 : ℚ)), line := -1, column := 0 }
  { tiles := st.tiles, players := playersFrom st.spos slots, bombs := [] }

/-- PlaySetup.__init__: ten slots, slot 0 a human player and slots 1-3
AI players, the rest empty. -/
def PlaySetup.init : List (Option (ℤ × ℕ)) :=
  [some (0, 0), some (-1, 1), some (-1, 2), some (-1, 3),
   none, none, none, none, none, none]

/-- Spec-level raster decomposition: the first n rows of 15 characters. -/
def chunk15 : ℕ → List Char → List (List Char)
  | 0, _ => []
  | n + 1, s => s.take 15 :: chunk15 n (s.drop 15)

/-- Spec-level tile grid of a map string: the 11 raster rows of width
15, each character decoded by the floor/block/wall alphabet. -/
def tilesSpec (s : List Char) : List (List Tile) :=
  (chunk15 11 s).map (List.map tileOfChar)

/-- Spec-level spawn recording for one raster-indexed character: a digit
at raster index i puts the spawn of that player at column i mod 15 and
row i div 15. -/
def flatStep (sp : List (ℚ × ℚ)) (ic : ℕ × Char) : List (ℚ × ℚ) :=
  if ic.2.isDigit then
    sp.set (digitOf ic.2) (((ic.1 % 15 : ℕ) : ℚ), ((ic.1 / 15 : ℕ) : ℚ))
  else sp

/-- Spec-level starting positions: later occurrences of a digit
overwrite earlier ones; unused slots keep (0, 0). -/
def spawnSpec (s : List Char) : List (ℚ × ℚ) :=
  s.enum.foldl flatStep (List.replicate 10 ((0 : ℚ), (0 : ℚ)))

/-- The spawn positions recorded while the tile loop walks one row at
line L with the column counter running from col. -/
def rowSposAux (L : ℤ) : List (ℚ × ℚ) → ℕ → List Char → List (ℚ × ℚ)
  | sp, _, [] => sp
  | sp, col, c :: cs =>
    rowSposAux L
      (if c.isDigit then sp.set (digitOf c) ((col : ℚ), (L : ℚ)) else sp)
      (col + 1) cs

/-- The spawn positions recorded while the tile loop walks a list of
rows, the first at line L + 1. -/
def sposRows : List (ℚ × ℚ) → ℤ → List (List Char) → List (ℚ × ℚ)
  | sp, _, [] => sp
  | sp, L, r :: rs => sposRows (rowSposAux (L + 1) sp 0 r) (L + 1) rs

/-- Spec-level players of a valid map string: one player per occupied
slot at the center of its spawn tile. -/
def playersSpec (s : List Char) (slots : List (Option (ℤ × ℕ))) : List Player :=
  playersFrom (spawnSpec s) slots

/-- Is this action one of the four directional actions? -/
def isDirectional : InputAction → Bool
  | InputAction.up => true
  | InputAction.down => true
  | InputAction.right => true
  | InputAction.left => true
  | _ => false

/-- The walking state entered by a directional action. -/
def walkingOf : InputAction → PState
  | InputAction.up => PState.walkingUp
  | InputAction.down => PState.walkingDown
  | InputAction.right => PState.walkingRight
  | InputAction.left => PState.walkingLeft
  | _ => PState.idleDown

/-- Displacement of one directional action by the given distance. -/
def moveBy (pos : ℚ × ℚ) (dist : ℚ) : InputAction → ℚ × ℚ
  | InputAction.up => (pos.1, pos.2 - dist)
  | InputAction.down => (pos.1, pos.2 + dist)
  | InputAction.right => (pos.1 + dist, pos.2)
  | InputAction.left => (pos.1 - dist, pos.2)
  | _ => pos

/-- The first directional action addressed to player n, in input-list
order. -/
def firstDir (n : ℤ) (acts : List (ℤ × InputAction)) : Option InputAction :=
  ((acts.filter fun it => it.1 == n && isDirectional it.2).head?).map Prod.snd

/-- The facing direction of a player state; the dead state faces
nowhere. -/
def facingOf : PState → Option InputAction
  | PState.idleUp => some InputAction.up
  | PState.walkingUp => some InputAction.up
  | PState.idleRight => some InputAction.right
  | PState.walkingRight => some InputAction.right
  | PState.idleDown => some InputAction.down
  | PState.walkingDown => some InputAction.down
  | PState.idleLeft => some InputAction.left
  | PState.walkingLeft => some InputAction.left
  | PState.dead => none

/-- The idle state facing the given direction. -/
def idleOf : InputAction → PState
  | InputAction.up => PState.idleUp
  | InputAction.down => PState.idleDown
  | InputAction.right => PState.idleRight
  | InputAction.left => PState.idleLeft
  | _ => PState.idleDown

/-- One bomb after dt milliseconds of aging. -/
def ageBomb (dt : ℕ) (b : Bomb) : Bomb :=
  { b with time_of_existence := b.time_of_existence + dt }

/-- A sample player used by the concrete witnesses: player 0 standing at
the center of tile (0, 0), otherwise the Player.__init__ defaults. -/
def somePlayer : Player :=
  { number := 0, team_color := 0, state := PState.idleDown, state_time := 0,
    speed := 3, bombs_left := 5, position := (1/2, 1/2) }

/-- A sample dead player. -/
def deadPlayer : Player :=
  { somePlayer with state := PState.dead }

/-- A sample map with no tiles, players or bombs. -/
def emptyMap : GameMap :=
  { tiles := [], players := [], bombs := [] }

/-- A sample map holding one freshly placed bomb of player 0. -/
def oneBombMap : GameMap :=
  { tiles := [], players := [somePlayer],
    bombs := [{ position := (1/2, 1/2), time_of_existence := 0,
                explodes_in := 3000, owner := 0 }] }

/-- A tile sequence of 164 characters, one short of 15 times 11. -/
def bad164 : List Char := List.replicate 164 '.'

/-- A valid tile sequence of exactly 165 floor characters. -/
def good165 : List Char := List.replicate 165 '.'

/-- The state produced by the directional channel of one tick: the
walking state of the winning directional action, or the given fallback
state when no directional action wins. -/
def dirStateResult (s0 : PState) (fd : Option InputAction) : PState :=
  match fd with
  | some a => walkingOf a
  | none => s0

/-- The position produced by the directional channel of one tick. -/
def dirPosResult (pos : ℚ × ℚ) (dist : ℚ) (fd : Option InputAction) : ℚ × ℚ :=
  match fd with
  | some a => moveBy pos dist a
  | none => pos

/-- The floor of an integer plus one half is that integer: snapping to a
tile center stays on the tile. -/
theorem floor_intCast_add_half (z : ℤ) : ⌊(z : ℚ) + 1/2⌋ = z := by
  have h : ⌊(1/2 : ℚ)⌋ = 0 := by
    rw [Int.floor_eq_iff]
    norm_num
  rw [add_comm, Int.floor_add_int, h, zero_add]

/-- Map.update processes the bomb list as one pass: every bomb is aged
by dt exactly once, the aged bombs whose fuse is not yet exceeded are
kept in order, and each expired aged bomb credits its owner once. -/
theorem updateBombs_eq (dt : ℕ) :
    ∀ (bombs : List Bomb) (ps : List Player),
      updateBombs dt bombs ps =
        ((bombs.map (ageBomb dt)).filter
            (fun b => b.time_of_existence ≤ b.explodes_in),
         ((bombs.map (ageBomb dt)).filter
            (fun b => b.explodes_in < b.time_of_existence)).foldl
           (fun qs b => creditPlayer b.owner qs) ps) := by
  intro bombs
  induction bombs with
  | nil => intro ps; simp [updateBombs]
  | cons b rest ih =>
    intro ps
    by_cases h : b.explodes_in < b.time_of_existence + dt
    · simp [updateBombs, h, ih, ageBomb, List.filter_cons, Nat.not_le.mpr h]
    · simp [updateBombs, h, ih, ageBomb, List.filter_cons, Nat.not_lt.mp h]

/-- A map without bombs is unchanged by Map.update. -/
theorem update_bombless (m : GameMap) (dt : ℕ) (h : m.bombs = []) :
    m.update dt = m := by
  cases m
  simp_all [GameMap.update, updateBombs]

/-- A map without bombs is unchanged by any sequence of updates. -/
theorem foldl_update_bombless :
    ∀ (dts : List ℕ) (m : GameMap), m.bombs = [] → dts.foldl GameMap.update m = m := by
  intro dts
  induction dts with
  | nil => intro m _; rfl
  | cons d ds ih =>
    intro m h
    simp only [List.foldl_cons, update_bombless m d h]
    exact ih m h

/-- One update of a map carrying a single bomb with a 3000 ms fuse:
either the bomb ages in place, or it expires, leaves the live set, and
its owner is credited. -/
theorem update_single (tiles : List (List Tile)) (players : List Player)
    (pos : ℚ × ℚ) (n : ℤ) (t : ℕ) (dt : ℕ) :
    GameMap.update ⟨tiles, players, [⟨pos, t, 3000, n⟩]⟩ dt =
      if t + dt ≤ 3000 then ⟨tiles, players, [⟨pos, t + dt, 3000, n⟩]⟩
      else ⟨tiles, creditPlayer n players, []⟩ := by
  by_cases h : t + dt ≤ 3000
  · simp [GameMap.update, updateBombs, h, Nat.not_lt.mpr h]
  · simp [GameMap.update, updateBombs, h, Nat.lt_of_not_le h]

/-- Any sequence of updates of a map carrying a single live bomb with a
3000 ms fuse: the bomb ages by the total elapsed time while that total
keeps the fuse, and otherwise it has been removed and its owner
credited exactly once. -/
theorem foldl_update_single :
    ∀ (dts : List ℕ) (tiles : List (List Tile)) (players : List Player)
      (pos : ℚ × ℚ) (n : ℤ) (t : ℕ), t ≤ 3000 →
      dts.foldl GameMap.update ⟨tiles, players, [⟨pos, t, 3000, n⟩]⟩ =
        if t + dts.sum ≤ 3000 then ⟨tiles, players, [⟨pos, t + dts.sum, 3000, n⟩]⟩
        else ⟨tiles, creditPlayer n players, []⟩ := by
  intro dts
  induction dts with
  | nil =>
    intro tiles players pos n t ht
    simp [Nat.add_zero, ht]
  | cons d ds ih =>
    intro tiles players pos n t ht
    rw [List.foldl_cons, update_single]
    by_cases h : t + d ≤ 3000
    · rw [if_pos h, ih tiles players pos n (t + d) h, List.sum_cons]
      by_cases h2 : t + (d + ds.sum) ≤ 3000
      · have h3 : t + d + ds.sum ≤ 3000 := by omega
        have h4 : t + d + ds.sum = t + (d + ds.sum) := by omega
        rw [if_pos h3, if_pos h2, h4]
      · have h3 : ¬ (t + d + ds.sum ≤ 3000) := by omega
        rw [if_neg h3, if_neg h2]
    · have h3 : ¬ (t + (d :: ds).sum ≤ 3000) := by
        rw [List.sum_cons]
        omega
      rw [if_neg h, foldl_update_bombless ds _ rfl, if_neg h3]

/-- Claim C7: a single Map.update(dt) ages every live bomb by dt exactly
once, removes exactly the bombs whose existence then exceeds the fuse,
keeps every other bomb (in order), and credits the owner of each expired
bomb exactly once — one stable front-to-back pass with no bomb skipped
or double-processed. -/
theorem claim_C7 (dt : ℕ) (m : GameMap) :
    (m.update dt).bombs =
      (m.bombs.map (ageBomb dt)).filter
        (fun b => b.time_of_existence ≤ b.explodes_in) ∧
    (m.update dt).players =
      ((m.bombs.map (ageBomb dt)).filter
        (fun b => b.explodes_in < b.time_of_existence)).foldl
        (fun qs b => creditPlayer b.owner qs) m.players := by
  constructor <;> simp [GameMap.update, updateBombs_eq]

/-- Claim C2, amended: a bomb placed with a fresh timer and the fixed
3000 ms fuse is still in the live bomb set after any update sequence
whose accumulated time is at most 3000 ms (in particular at exactly
3000 ms), carrying the accumulated time; as soon as the accumulated
time exceeds 3000 ms it is absent and its owner has been credited
exactly once. -/
theorem claim_C2_amended (tiles : List (List Tile)) (players : List Player)
    (pos : ℚ × ℚ) (n : ℤ) (dts : List ℕ) :
    (dts.foldl GameMap.update ⟨tiles, players, [⟨pos, 0, 3000, n⟩]⟩).bombs =
      (if dts.sum ≤ 3000 then [⟨pos, dts.sum, 3000, n⟩] else []) ∧
    (dts.foldl GameMap.update ⟨tiles, players, [⟨pos, 0, 3000, n⟩]⟩).players =
      (if dts.sum ≤ 3000 then players else creditPlayer n players) := by
  rw [foldl_update_single dts tiles players pos n 0 (by omega)]
  by_cases h : dts.sum ≤ 3000
  · rw [if_pos (by omega : 0 + dts.sum ≤ 3000), if_pos h, if_pos h]
    exact ⟨by rw [Nat.zero_add], rfl⟩
  · rw [if_neg (by omega : ¬ (0 + dts.sum ≤ 3000)), if_neg h, if_neg h]
    exact ⟨rfl, rfl⟩

/-- Claim C2 fails as stated: a bomb placed at time 0 with the 3000 ms
fuse is still present at accumulated time exactly 3000 (the source
removes a bomb only when its existence strictly exceeds the fuse), and
is gone one millisecond later. -/
theorem claim_C2_counterexample :
    (oneBombMap.update 3000).bombs =
      [{ position := (1/2, 1/2), time_of_existence := 3000,
         explodes_in := 3000, owner := 0 }] ∧
    ((oneBombMap.update 3000).update 1).bombs = [] := by
  constructor <;> rfl

/-- A map whose bomb list holds a bomb on the tile of the given
position reports a bomb there. -/
theorem tile_has_bomb_mem (m : GameMap) (b : Bomb) (hb : b ∈ m.bombs)
    (pos : ℚ × ℚ) (h1 : ⌊pos.1⌋ = ⌊b.position.1⌋)
    (h2 : ⌊pos.2⌋ = ⌊b.position.2⌋) :
    m.tile_has_bomb pos = true := by
  unfold GameMap.tile_has_bomb
  rw [List.any_eq_true]
  exact ⟨b, hb, by simp [h1, h2]⟩

/-- Claim C1: in a tick carrying a place-bomb action for the player, the
action is honored exactly when the player has bomb budget and the map
has no live bomb on the player's tile; on success the new bomb sits at
the tile center of the player's position with a fresh timer, the 3000 ms
fuse and the player as owner, it is appended to the live bomb set (so
the map then reports a bomb on that tile) and the budget drops by
exactly one; otherwise the map and the budget are unchanged. -/
theorem claim_C1 (p : Player) (dt : ℕ) (m : GameMap) :
    if 1 ≤ p.bombs_left ∧ m.tile_has_bomb p.position = false then
      (p.react_to_inputs [(p.number, InputAction.bomb)] dt m).2 =
          { m with bombs := m.bombs ++
              [{ position := tileCenter p.position, time_of_existence := 0,
                 explodes_in := 3000, owner := p.number }] } ∧
        (p.react_to_inputs [(p.number, InputAction.bomb)] dt m).1.bombs_left
          = p.bombs_left - 1 ∧
        ((p.react_to_inputs [(p.number, InputAction.bomb)] dt m).2).tile_has_bomb
          p.position = true
    else
      (p.react_to_inputs [(p.number, InputAction.bomb)] dt m).2 = m ∧
        (p.react_to_inputs [(p.number, InputAction.bomb)] dt m).1.bombs_left
          = p.bombs_left := by
  by_cases h : 1 ≤ p.bombs_left ∧ m.tile_has_bomb p.position = false
  · rw [if_pos h]
    obtain ⟨h1, h2⟩ := h
    have e2 : (p.react_to_inputs [(p.number, InputAction.bomb)] dt m).2 =
        { m with bombs := m.bombs ++
            [{ position := tileCenter p.position, time_of_existence := 0,
               explodes_in := 3000, owner := p.number }] } := by
      simp [Player.react_to_inputs, reactStep, newBomb, GameMap.add_bomb, h1, h2]
    refine ⟨e2, ?_, ?_⟩
    · simp [Player.react_to_inputs, reactStep, h1, h2, apply_ite Player.bombs_left]
    · rw [e2]
      exact tile_has_bomb_mem _
        ⟨tileCenter p.position, 0, 3000, p.number⟩ (by simp) _
        (by rw [tileCenter]; exact (floor_intCast_add_half _).symm)
        (by rw [tileCenter]; exact (floor_intCast_add_half _).symm)
  · rw [if_neg h]
    constructor <;>
      simp [Player.react_to_inputs, reactStep, h, apply_ite Player.bombs_left]

/-- One iteration of the action loop never makes the bomb budget
negative: it only ever decrements under the budget guard. -/
theorem reactStep_bombs_left_nonneg (dist : ℚ) (s : Player × Bool × GameMap)
    (item : ℤ × InputAction) (h : 0 ≤ s.1.bombs_left) :
    0 ≤ (reactStep dist s item).1.bombs_left := by
  rcases s with ⟨p, moved, m⟩
  simp only [reactStep]
  split_ifs <;> simp_all

/-- The whole action loop never makes the bomb budget negative. -/
theorem foldl_reactStep_bombs_left_nonneg :
    ∀ (acts : List (ℤ × InputAction)) (dist : ℚ) (s : Player × Bool × GameMap),
      0 ≤ s.1.bombs_left → 0 ≤ (acts.foldl (reactStep dist) s).1.bombs_left := by
  intro acts
  induction acts with
  | nil => intro dist s h; exact h
  | cons a rest ih =>
    intro dist s h
    exact ih dist _ (reactStep_bombs_left_nonneg dist s a h)

/-- Crediting a bomb owner preserves nonnegative budgets. -/
theorem creditPlayer_nonneg (n : ℤ) (ps : List Player)
    (h : ∀ q ∈ ps, 0 ≤ q.bombs_left) :
    ∀ q ∈ creditPlayer n ps, 0 ≤ q.bombs_left := by
  intro q hq
  simp only [creditPlayer, List.mem_map] at hq
  obtain ⟨q0, hq0, rfl⟩ := hq
  have h0 := h q0 hq0
  split_ifs <;> simp <;> omega


/-- Any sequence of owner credits preserves nonnegative budgets. -/
theorem foldl_credit_nonneg :
    ∀ (bs : List Bomb) (ps : List Player), (∀ q ∈ ps, 0 ≤ q.bombs_left) →
      ∀ q ∈ bs.foldl (fun qs b => creditPlayer b.owner qs) ps, 0 ≤ q.bombs_left := by
  intro bs
  induction bs with
  | nil => intro ps h; exact h
  | cons b rest ih => intro ps h; exact ih _ (creditPlayer_nonneg _ _ h)

/-- Claim C9: the bomb budget starts at 5 and stays nonnegative:
react_to_inputs decrements it only under its budget guard, and Map.update
only ever increments it. -/
theorem claim_C9 :
    Player.init.bombs_left = 5 ∧
    (∀ (p : Player) (acts : List (ℤ × InputAction)) (dt : ℕ) (m : GameMap),
      0 ≤ p.bombs_left → 0 ≤ ((p.react_to_inputs acts dt m).1).bombs_left) ∧
    (∀ (m : GameMap) (dt : ℕ), (∀ q ∈ m.players, 0 ≤ q.bombs_left) →
      ∀ q ∈ (m.update dt).players, 0 ≤ q.bombs_left) := by
  refine ⟨rfl, ?_, ?_⟩
  · intro p acts dt m h
    have hf := foldl_reactStep_bombs_left_nonneg acts ((dt : ℚ) / 1000 * p.speed)
      ({ p with state := collapse p.state }, false, m) (by simpa using h)
    simp only [Player.react_to_inputs]
    split <;> simpa using hf
  · intro m dt h q hq
    have hu : (m.update dt).players =
        ((m.bombs.map (ageBomb dt)).filter
          (fun b => b.explodes_in < b.time_of_existence)).foldl
          (fun qs b => creditPlayer b.owner qs) m.players := by
      simp [GameMap.update, updateBombs_eq]
    rw [hu] at hq
    exact foldl_credit_nonneg _ _ h q hq

/-- Claim C9 witness: a concrete instance of the react preservation
conjunct. -/
theorem claim_C9_witness :
    0 ≤ somePlayer.bombs_left ∧
    0 ≤ ((somePlayer.react_to_inputs [(0, InputAction.bomb)] 16 emptyMap).1).bombs_left :=
  ⟨by decide, claim_C9.2.1 somePlayer [(0, InputAction.bomb)] 16 emptyMap (by decide)⟩

/-- An action pair for another player does not contribute a direction. -/
theorem firstDir_cons_other (n m0 : ℤ) (act : InputAction)
    (acts : List (ℤ × InputAction)) (h : n ≠ m0) :
    firstDir m0 ((n, act) :: acts) = firstDir m0 acts := by
  simp [firstDir, List.filter_cons, h]

/-- A non-directional action for the player does not contribute a
direction. -/
theorem firstDir_cons_nondir (m0 : ℤ) (act : InputAction)
    (acts : List (ℤ × InputAction)) (h : isDirectional act = false) :
    firstDir m0 ((m0, act) :: acts) = firstDir m0 acts := by
  simp [firstDir, List.filter_cons, h]

/-- A directional action for the player heading the list is the winning
direction. -/
theorem firstDir_cons_dir (m0 : ℤ) (act : InputAction)
    (acts : List (ℤ × InputAction)) (h : isDirectional act = true) :
    firstDir m0 ((m0, act) :: acts) = some act := by
  simp [firstDir, List.filter_cons, h]

/-- When no action of the list is a directional action for the player,
there is no winning direction. -/
theorem firstDir_eq_none (n : ℤ) (acts : List (ℤ × InputAction))
    (h : ∀ it ∈ acts, it.1 = n → isDirectional it.2 = false) :
    firstDir n acts = none := by
  have hf : (acts.filter fun it => it.1 == n && isDirectional it.2) = [] := by
    rw [List.filter_eq_nil_iff]
    intro it hit
    by_cases he : it.1 = n
    · simp [he, h it hit he]
    · simp [he]
  simp [firstDir, hf]

/-- Once the moved flag is set, one more loop iteration changes neither
state, position, number nor state_time of the player, and the flag
stays set. -/
theorem reactStep_moved_true (dist : ℚ) (p : Player) (m : GameMap)
    (item : ℤ × InputAction) :
    ∃ (p2 : Player) (m2 : GameMap),
      reactStep dist (p, true, m) item = (p2, true, m2) ∧
      p2.number = p.number ∧ p2.state_time = p.state_time ∧
      p2.state = p.state ∧ p2.position = p.position := by
  by_cases h1 : item.1 ≠ p.number
  · exact ⟨p, m, by simp [reactStep, h1], rfl, rfl, rfl, rfl⟩
  · by_cases hb : item.2 = InputAction.bomb ∧ 1 ≤ p.bombs_left ∧
        m.tile_has_bomb p.position = false
    · refine ⟨{ p with bombs_left := p.bombs_left - 1 }, m.add_bomb (newBomb p),
        ?_, rfl, rfl, rfl, rfl⟩
      simp [reactStep, h1, hb.1, hb.2.1, hb.2.2]
    · refine ⟨p, m, ?_, rfl, rfl, rfl, rfl⟩
      simp only [reactStep]
      split_ifs with g1 g2 g3 g4 g5 g6 <;> simp_all

/-- Once the moved flag is set, the rest of the loop changes neither
state, position, number nor state_time of the player. -/
theorem foldl_reactStep_moved_true :
    ∀ (acts : List (ℤ × InputAction)) (dist : ℚ) (p : Player) (m : GameMap),
      (acts.foldl (reactStep dist) (p, true, m)).1.number = p.number ∧
      (acts.foldl (reactStep dist) (p, true, m)).1.state_time = p.state_time ∧
      (acts.foldl (reactStep dist) (p, true, m)).1.state = p.state ∧
      (acts.foldl (reactStep dist) (p, true, m)).1.position = p.position := by
  intro acts
  induction acts with
  | nil => intro dist p m; exact ⟨rfl, rfl, rfl, rfl⟩
  | cons a rest ih =>
    intro dist p m
    obtain ⟨p2, m2, he, e1, e2, e3, e4⟩ := reactStep_moved_true dist p m a
    rw [List.foldl_cons, he]
    obtain ⟨i1, i2, i3, i4⟩ := ih dist p2 m2
    exact ⟨i1.trans e1, i2.trans e2, i3.trans e3, i4.trans e4⟩

/-- The action loop started with a clear moved flag: the player keeps
its number and state_time, and its state and position are those of the
first directional action addressed to it (in input-list order), if
any. -/
theorem foldl_reactStep_false_char :
    ∀ (acts : List (ℤ × InputAction)) (dist : ℚ) (p : Player) (m : GameMap),
      (acts.foldl (reactStep dist) (p, false, m)).1.number = p.number ∧
      (acts.foldl (reactStep dist) (p, false, m)).1.state_time = p.state_time ∧
      (acts.foldl (reactStep dist) (p, false, m)).1.state =
        dirStateResult p.state (firstDir p.number acts) ∧
      (acts.foldl (reactStep dist) (p, false, m)).1.position =
        dirPosResult p.position dist (firstDir p.number acts) := by
  intro acts
  induction acts with
  | nil => intro dist p m; exact ⟨rfl, rfl, rfl, rfl⟩
  | cons a rest ih =>
    intro dist p m
    rcases a with ⟨n, act⟩
    by_cases hn : n = p.number
    · subst hn
      cases act with
      | up =>
        have hstep : reactStep dist (p, false, m) (p.number, InputAction.up) =
            ({ p with position := (p.position.1, p.position.2 - dist),
                      state := PState.walkingUp }, true, m) := by
          simp [reactStep]
        rw [List.foldl_cons, hstep,
          firstDir_cons_dir p.number InputAction.up rest rfl]
        obtain ⟨i1, i2, i3, i4⟩ := foldl_reactStep_moved_true rest dist _ m
        exact ⟨by simpa using i1, by simpa using i2,
          by simpa [dirStateResult, walkingOf] using i3,
          by simpa [dirPosResult, moveBy] using i4⟩
      | down =>
        have hstep : reactStep dist (p, false, m) (p.number, InputAction.down) =
            ({ p with position := (p.position.1, p.position.2 + dist),
                      state := PState.walkingDown }, true, m) := by
          simp [reactStep]
        rw [List.foldl_cons, hstep,
          firstDir_cons_dir p.number InputAction.down rest rfl]
        obtain ⟨i1, i2, i3, i4⟩ := foldl_reactStep_moved_true rest dist _ m
        exact ⟨by simpa using i1, by simpa using i2,
          by simpa [dirStateResult, walkingOf] using i3,
          by simpa [dirPosResult, moveBy] using i4⟩
      | right =>
        have hstep : reactStep dist (p, false, m) (p.number, InputAction.right) =
            ({ p with position := (p.position.1 + dist, p.position.2),
                      state := PState.walkingRight }, true, m) := by
          simp [reactStep]
        rw [List.foldl_cons, hstep,
          firstDir_cons_dir p.number InputAction.right rest rfl]
        obtain ⟨i1, i2, i3, i4⟩ := foldl_reactStep_moved_true rest dist _ m
        exact ⟨by simpa using i1, by simpa using i2,
          by simpa [dirStateResult, walkingOf] using i3,
          by simpa [dirPosResult, moveBy] using i4⟩
      | left =>
        have hstep : reactStep dist (p, false, m) (p.number, InputAction.left) =
            ({ p with position := (p.position.1 - dist, p.position.2),
                      state := PState.walkingLeft }, true, m) := by
          simp [reactStep]
        rw [List.foldl_cons, hstep,
          firstDir_cons_dir p.number InputAction.left rest rfl]
        obtain ⟨i1, i2, i3, i4⟩ := foldl_reactStep_moved_true rest dist _ m
        exact ⟨by simpa using i1, by simpa using i2,
          by simpa [dirStateResult, walkingOf] using i3,
          by simpa [dirPosResult, moveBy] using i4⟩
      | bomb =>
        rw [List.foldl_cons, firstDir_cons_nondir p.number InputAction.bomb rest rfl]
        by_cases hb : 1 ≤ p.bombs_left ∧ m.tile_has_bomb p.position = false
        · have hstep : reactStep dist (p, false, m) (p.number, InputAction.bomb) =
              ({ p with bombs_left := p.bombs_left - 1 }, false,
                m.add_bomb (newBomb p)) := by
            simp [reactStep, hb.1, hb.2]
          rw [hstep]
          obtain ⟨i1, i2, i3, i4⟩ := ih dist { p with bombs_left := p.bombs_left - 1 }
            (m.add_bomb (newBomb p))
          exact ⟨by simpa using i1, by simpa using i2,
            by simpa using i3, by simpa using i4⟩
        · have hstep : reactStep dist (p, false, m) (p.number, InputAction.bomb) =
              (p, false, m) := by
            simp only [reactStep]
            split_ifs with g1 g2 g3 g4 <;> simp_all
          rw [hstep]
          exact ih dist p m
      | special =>
        have hstep : reactStep dist (p, false, m) (p.number, InputAction.special) =
            (p, false, m) := by
          simp [reactStep]
        rw [List.foldl_cons, hstep,
          firstDir_cons_nondir p.number InputAction.special rest rfl]
        exact ih dist p m
      | menu =>
        have hstep : reactStep dist (p, false, m) (p.number, InputAction.menu) =
            (p, false, m) := by
          simp [reactStep]
        rw [List.foldl_cons, hstep,
          firstDir_cons_nondir p.number InputAction.menu rest rfl]
        exact ih dist p m
    · have hstep : reactStep dist (p, false, m) (n, act) = (p, false, m) := by
        simp [reactStep, hn]
      rw [List.foldl_cons, hstep, firstDir_cons_other n p.number act rest hn]
      exact ih dist p m

/-- The player returned by react_to_inputs keeps its number. -/
theorem react_number_eq (p : Player) (acts : List (ℤ × InputAction)) (dt : ℕ)
    (m : GameMap) :
    (p.react_to_inputs acts dt m).1.number = p.number := by
  have h1 := (foldl_reactStep_false_char acts ((dt : ℚ) / 1000 * p.speed)
    { p with state := collapse p.state } m).1
  simp only [Player.react_to_inputs, apply_ite Player.number]
  simpa using h1

/-- The state returned by react_to_inputs: the walking state of the
first directional action addressed to the player, or the collapsed
starting state when there is none. -/
theorem react_state_eq (p : Player) (acts : List (ℤ × InputAction)) (dt : ℕ)
    (m : GameMap) :
    (p.react_to_inputs acts dt m).1.state =
      dirStateResult (collapse p.state) (firstDir p.number acts) := by
  have h3 := (foldl_reactStep_false_char acts ((dt : ℚ) / 1000 * p.speed)
    { p with state := collapse p.state } m).2.2.1
  simp only [Player.react_to_inputs, apply_ite Player.state]
  simpa using h3

/-- The position returned by react_to_inputs: moved by
speed times dt over 1000 along the winning direction, or unchanged when
no directional action wins. -/
theorem react_position_eq (p : Player) (acts : List (ℤ × InputAction)) (dt : ℕ)
    (m : GameMap) :
    (p.react_to_inputs acts dt m).1.position =
      dirPosResult p.position ((dt : ℚ) / 1000 * p.speed)
        (firstDir p.number acts) := by
  have h4 := (foldl_reactStep_false_char acts ((dt : ℚ) / 1000 * p.speed)
    { p with state := collapse p.state } m).2.2.2
  simp only [Player.react_to_inputs, apply_ite Player.position]
  simpa using h4

/-- Claim C6, amended: after react_to_inputs the state_time is the
previous state_time plus dt when the resulting state equals the state at
the start of the call, and 0 when it differs (in the degenerate dt = 0,
state_time = 0 case both descriptions give 0). -/
theorem claim_C6_amended (p : Player) (acts : List (ℤ × InputAction)) (dt : ℕ)
    (m : GameMap) :
    (p.react_to_inputs acts dt m).1.state_time =
      if (p.react_to_inputs acts dt m).1.state = p.state
      then p.state_time + dt else 0 := by
  have h2 := (foldl_reactStep_false_char acts ((dt : ℚ) / 1000 * p.speed)
    { p with state := collapse p.state } m).2.1
  simp only [Player.react_to_inputs, apply_ite Player.state_time,
    apply_ite Player.state, ite_self]
  by_cases hc : p.state =
      (List.foldl (reactStep ((dt : ℚ) / 1000 * p.speed))
        ({ p with state := collapse p.state }, false, m) acts).1.state
  · rw [if_pos hc, if_pos hc.symm]
    simpa using h2
  · rw [if_neg hc, if_neg (fun h => hc h.symm)]

/-- Claim C6 fails as stated: at a tick with dt = 0 and no actions, a
fresh player keeps its state and its state_time stays 0, so state_time
is 0 on a tick where the state did not change — the claimed equivalence
between a zero state_time and a state change does not hold. -/
theorem claim_C6_counterexample :
    ¬ (((somePlayer.react_to_inputs [] 0 emptyMap).1.state_time = 0) ↔
       ((somePlayer.react_to_inputs [] 0 emptyMap).1.state ≠ somePlayer.state)) := by
  decide

/-- Claim C3 fails as stated: with both a Left and an Up action present
for the same tick, listed in that order, the player walks left — the
winning direction follows the order of the input list, not a fixed
Up-Down-Right-Left priority (which would predict walking up). -/
theorem claim_C3_counterexample :
    ((somePlayer.react_to_inputs
        [(0, InputAction.left), (0, InputAction.up)] 16 emptyMap).1).state
      = PState.walkingLeft ∧
    PState.walkingLeft ≠ PState.walkingUp := by
  exact ⟨rfl, by decide⟩

/-- Claim C3, amended: when several directional actions for the player
are present in one tick, the one that takes effect is the first one in
input-list order; the later ones are ignored. -/
theorem claim_C3_amended (p : Player) (acts : List (ℤ × InputAction)) (dt : ℕ)
    (m : GameMap) (a : InputAction) (h : firstDir p.number acts = some a) :
    ((p.react_to_inputs acts dt m).1).state = walkingOf a := by
  rw [react_state_eq, h]
  rfl

/-- Claim C3 witness: a concrete instance of the amended claim. -/
theorem claim_C3_witness :
    firstDir somePlayer.number [(0, InputAction.left), (0, InputAction.up)]
        = some InputAction.left ∧
    ((somePlayer.react_to_inputs
        [(0, InputAction.left), (0, InputAction.up)] 16 emptyMap).1).state
      = walkingOf InputAction.left :=
  ⟨rfl, claim_C3_amended somePlayer [(0, InputAction.left), (0, InputAction.up)]
    16 emptyMap InputAction.left rfl⟩

/-- A state with a facing direction collapses to the idle state of that
direction. -/
theorem collapse_eq_idleOf (s : PState) (d : InputAction)
    (h : facingOf s = some d) : collapse s = idleOf d := by
  cases s <;> cases d <;> simp_all [facingOf, collapse, idleOf]

/-- Claim C4: react_to_inputs moves the position along at most one axis,
by exactly speed times dt over 1000 tiles in the winning direction, and
enters the matching walking state; with no directional action for the
player the position is unchanged and the state is the idle state of the
previous facing direction. -/
theorem claim_C4 (p : Player) (acts : List (ℤ × InputAction)) (dt : ℕ)
    (m : GameMap) (d : InputAction) (h : facingOf p.state = some d) :
    (match firstDir p.number acts with
     | some a =>
        ((p.react_to_inputs acts dt m).1).position =
          moveBy p.position ((dt : ℚ) / 1000 * p.speed) a ∧
        ((p.react_to_inputs acts dt m).1).state = walkingOf a
     | none =>
        ((p.react_to_inputs acts dt m).1).position = p.position ∧
        ((p.react_to_inputs acts dt m).1).state = idleOf d) := by
  have hs := react_state_eq p acts dt m
  have hp := react_position_eq p acts dt m
  cases hfd : firstDir p.number acts with
  | some a =>
    rw [hfd] at hs hp
    exact ⟨by simpa [dirPosResult] using hp, by simpa [dirStateResult] using hs⟩
  | none =>
    rw [hfd] at hs hp
    have hc : collapse p.state = idleOf d := collapse_eq_idleOf p.state d h
    exact ⟨by simpa [dirPosResult] using hp,
      by simpa [dirStateResult, hc] using hs⟩

/-- Claim C4 witness: a concrete instance with no directional action
and one with a winning direction come from the same theorem. -/
theorem claim_C4_witness :
    facingOf somePlayer.state = some InputAction.down ∧
    ((somePlayer.react_to_inputs [] 16 emptyMap).1).position
        = somePlayer.position ∧
    ((somePlayer.react_to_inputs [] 16 emptyMap).1).state
        = idleOf InputAction.down :=
  ⟨rfl, claim_C4 somePlayer [] 16 emptyMap InputAction.down rfl⟩

/-- The collapse map never yields the dead state. -/
theorem collapse_ne_dead (s : PState) : collapse s ≠ PState.dead := by
  cases s <;> simp [collapse]

/-- The walking-state map never yields the dead state. -/
theorem walkingOf_ne_dead (a : InputAction) : walkingOf a ≠ PState.dead := by
  cases a <;> simp [walkingOf]

/-- Claim C10: the dead state is not preserved by a tick: a dead player
with no directional action addressed to it leaves react_to_inputs in the
idle-left state (the collapse else-branch), and more generally no player
is ever in the dead state after react_to_inputs. -/
theorem claim_C10 :
    (∀ (p : Player) (acts : List (ℤ × InputAction)) (dt : ℕ) (m : GameMap),
      p.state = PState.dead →
      (∀ it ∈ acts, it.1 = p.number → isDirectional it.2 = false) →
      ((p.react_to_inputs acts dt m).1).state = PState.idleLeft) ∧
    (∀ (p : Player) (acts : List (ℤ × InputAction)) (dt : ℕ) (m : GameMap),
      ((p.react_to_inputs acts dt m).1).state ≠ PState.dead) := by
  constructor
  · intro p acts dt m hdead hnodir
    rw [react_state_eq, firstDir_eq_none p.number acts hnodir, hdead]
    rfl
  · intro p acts dt m
    rw [react_state_eq]
    cases hfd : firstDir p.number acts with
    | some a => simpa [dirStateResult] using walkingOf_ne_dead a
    | none => simpa [dirStateResult] using collapse_ne_dead p.state

/-- Claim C10 witness: a concrete dead player settles into idle-left
after one tick without directional input. -/
theorem claim_C10_witness :
    deadPlayer.state = PState.dead ∧
    ((deadPlayer.react_to_inputs [(0, InputAction.bomb)] 7 emptyMap).1).state
      = PState.idleLeft :=
  ⟨rfl, claim_C10.1 deadPlayer [(0, InputAction.bomb)] 7 emptyMap rfl (by decide)⟩

/-- appendLast on a cons-cons list walks past the head. -/
theorem appendLast_cons_cons (a b : List Tile) (l2 : List (List Tile)) (t : Tile) :
    appendLast (a :: b :: l2) t = a :: appendLast (b :: l2) t := rfl

/-- appendLast on a grid with an exposed last row appends to that row. -/
theorem appendLast_concat :
    ∀ (X : List (List Tile)) (l : List Tile) (t : Tile),
      appendLast (X ++ [l]) t = X ++ [l ++ [t]] := by
  intro X
  induction X with
  | nil => intro l t; rfl
  | cons r rest ih =>
    intro l t
    obtain ⟨b, l2, hbl⟩ := List.exists_cons_of_ne_nil
      (show rest ++ [l] ≠ [] by simp)
    rw [List.cons_append, hbl, appendLast_cons_cons, ← hbl, ih]
    rfl

/-- appendLast keeps a nonempty grid nonempty. -/
theorem appendLast_ne_nil (X : List (List Tile)) (t : Tile) (h : X ≠ []) :
    appendLast X t ≠ [] := by
  cases X with
  | nil => exact absurd rfl h
  | cons r rest => cases rest <;> simp [appendLast, appendLast_cons_cons]

/-- appendLast on a nonempty grid adds exactly one tile to the flattened
grid. -/
theorem flatten_appendLast :
    ∀ (X : List (List Tile)) (t : Tile), X ≠ [] →
      (appendLast X t).flatten = X.flatten ++ [t] := by
  intro X
  induction X with
  | nil => intro t h; exact absurd rfl h
  | cons r rest ih =>
    intro t _
    cases rest with
    | nil => simp [appendLast]
    | cons b l2 =>
      rw [appendLast_cons_cons, List.flatten_cons, ih t (by simp)]
      simp [List.flatten_cons, List.append_assoc]

/-- Indexed enumeration distributes over append. -/
theorem enumFrom_append_eq :
    ∀ (l1 l2 : List Char) (n : ℕ),
      List.enumFrom n (l1 ++ l2) =
        List.enumFrom n l1 ++ List.enumFrom (n + l1.length) l2 := by
  intro l1
  induction l1 with
  | nil => intro l2 n; simp
  | cons a l1x ih =>
    intro l2 n
    rw [List.cons_append,
      show List.enumFrom n (a :: (l1x ++ l2)) =
        (n, a) :: List.enumFrom (n + 1) (l1x ++ l2) from rfl,
      ih l2 (n + 1),
      show List.enumFrom n (a :: l1x) =
        (n, a) :: List.enumFrom (n + 1) l1x from rfl,
      List.cons_append, List.length_cons]
    have hn : n + 1 + l1x.length = n + (l1x.length + 1) := by omega
    rw [hn]

/-- The tile loop inside one row (no row boundary hit): the characters
are appended to the open last row in order, spawn digits are recorded
with the running column at the current line, and the line counter is
unchanged. -/
theorem foldNoNewRow :
    ∀ (r : List Char) (i0 : ℕ) (X : List (List Tile)) (l : List Tile)
      (sp : List (ℚ × ℚ)) (L : ℤ) (col : ℕ),
      (∀ j, j < r.length → (i0 + j) % 15 ≠ 0) →
      List.foldl initStep ⟨X ++ [l], sp, L, col⟩ (List.enumFrom i0 r) =
        ⟨X ++ [l ++ r.map tileOfChar], rowSposAux L sp col r, L,
          col + r.length⟩ := by
  intro r
  induction r with
  | nil => intro i0 X l sp L col h; simp [rowSposAux]
  | cons c cs ih =>
    intro i0 X l sp L col h
    have h0 : i0 % 15 ≠ 0 := by
      have h1 := h 0 (by simp)
      simpa using h1
    have hstep : initStep ⟨X ++ [l], sp, L, col⟩ (i0, c) =
        ⟨X ++ [l ++ [tileOfChar c]],
         (if c.isDigit then sp.set (digitOf c) ((col : ℚ), (L : ℚ)) else sp),
         L, col + 1⟩ := by
      simp only [initStep, if_neg h0]
      rw [appendLast_concat]
    rw [show List.enumFrom i0 (c :: cs) =
        (i0, c) :: List.enumFrom (i0 + 1) cs from rfl,
      List.foldl_cons, hstep,
      ih (i0 + 1) X (l ++ [tileOfChar c]) _ L (col + 1)
        (fun j hj => by
          have h2 := h (j + 1) (by simp only [List.length_cons]; omega)
          have h3 : i0 + 1 + j = i0 + (j + 1) := by omega
          rw [h3]
          exact h2)]
    simp [rowSposAux, List.append_assoc, List.length_cons]
    omega

/-- One full 15-character row of the tile loop, entered on a row
boundary: a fresh row is opened and filled with the decoded characters,
spawn digits are recorded with columns 0..14 at the next line, and the
column counter ends at 15. -/
theorem foldFullRow :
    ∀ (c : Char) (cs : List Char) (i0 : ℕ) (X : List (List Tile))
      (sp : List (ℚ × ℚ)) (L : ℤ) (col : ℕ),
      cs.length = 14 → i0 % 15 = 0 →
      List.foldl initStep ⟨X, sp, L, col⟩ (List.enumFrom i0 (c :: cs)) =
        ⟨X ++ [(c :: cs).map tileOfChar], rowSposAux (L + 1) sp 0 (c :: cs),
          L + 1, 15⟩ := by
  intro c cs i0 X sp L col hlen hi
  have hstep : initStep ⟨X, sp, L, col⟩ (i0, c) =
      ⟨X ++ [[tileOfChar c]],
       (if c.isDigit then sp.set (digitOf c) ((0 : ℚ), ((L + 1 : ℤ) : ℚ)) else sp),
       L + 1, 1⟩ := by
    simp [initStep, hi, appendLast_concat]
  rw [show List.enumFrom i0 (c :: cs) =
      (i0, c) :: List.enumFrom (i0 + 1) cs from rfl,
    List.foldl_cons, hstep,
    foldNoNewRow cs (i0 + 1) X [tileOfChar c] _ (L + 1) 1
      (fun j hj => by rw [hlen] at hj; omega)]
  simp [rowSposAux, hlen]

/-- The tile loop over a list of full rows entered on a row boundary:
the grid grows by the decoded rows in order, the spawn positions are
those recorded row by row, and the line counter advances by the number
of rows. -/
theorem foldRowsChar :
    ∀ (rows : List (List Char)) (i0 : ℕ) (X : List (List Tile))
      (sp : List (ℚ × ℚ)) (L : ℤ) (col : ℕ),
      (∀ r ∈ rows, r.length = 15) → i0 % 15 = 0 →
      ∃ colF,
        List.foldl initStep ⟨X, sp, L, col⟩ (List.enumFrom i0 rows.flatten) =
          ⟨X ++ rows.map (List.map tileOfChar), sposRows sp L rows,
            L + rows.length, colF⟩ := by
  intro rows
  induction rows with
  | nil =>
    intro i0 X sp L col _ _
    exact ⟨col, by simp [sposRows]⟩
  | cons r rs ih =>
    intro i0 X sp L col h hi
    have hr : r.length = 15 := h r (by simp)
    obtain ⟨c, cs, hc⟩ := List.exists_cons_of_ne_nil
      (show r ≠ [] by intro he; rw [he] at hr; simp at hr)
    subst hc
    have hcs : cs.length = 14 := by simpa using hr
    rw [List.flatten_cons, enumFrom_append_eq, List.foldl_append,
      foldFullRow c cs i0 X sp L col hcs hi]
    have hi2 : (i0 + (c :: cs).length) % 15 = 0 := by
      simp only [List.length_cons, hcs]
      omega
    obtain ⟨colF, hF⟩ := ih (i0 + (c :: cs).length)
      (X ++ [(c :: cs).map tileOfChar]) (rowSposAux (L + 1) sp 0 (c :: cs))
      (L + 1) 15 (fun r2 hr2 => h r2 (by simp [hr2])) hi2
    refine ⟨colF, ?_⟩
    rw [hF]
    simp only [sposRows, List.map_cons, InitState.mk.injEq, List.length_cons]
    repeat' apply And.intro
    all_goals first
      | (simp [List.append_assoc]; done)
      | (push_cast; ring1)

/-- Inside one row, the incremental column and line counters agree with
the raster index decomposition i mod 15 and i div 15. -/
theorem rowSposAux_eq_flat :
    ∀ (r : List Char) (sp : List (ℚ × ℚ)) (k col : ℕ),
      col + r.length ≤ 15 →
      rowSposAux (k : ℤ) sp col r =
        List.foldl flatStep sp (List.enumFrom (15 * k + col) r) := by
  intro r
  induction r with
  | nil => intro sp k col _; rfl
  | cons c cs ih =>
    intro sp k col h
    have hcol : col < 15 := by
      simp only [List.length_cons] at h
      omega
    rw [show List.enumFrom (15 * k + col) (c :: cs) =
        (15 * k + col, c) :: List.enumFrom (15 * k + col + 1) cs from rfl,
      List.foldl_cons]
    have hmod : (15 * k + col) % 15 = col := by omega
    have hdiv : (15 * k + col) / 15 = k := by omega
    have hflat : flatStep sp (15 * k + col, c) =
        (if c.isDigit then sp.set (digitOf c) ((col : ℚ), ((k : ℤ) : ℚ))
         else sp) := by
      simp only [flatStep, hmod, hdiv]
      norm_cast
    rw [hflat, show 15 * k + col + 1 = 15 * k + (col + 1) by omega]
    simp only [rowSposAux]
    exact ih _ k (col + 1)
      (by simp only [List.length_cons] at h; omega)

/-- Over a list of full rows entered on a row boundary, the row-by-row
spawn recording agrees with the flat raster-index recording. -/
theorem sposRows_eq_flat :
    ∀ (rows : List (List Char)) (sp : List (ℚ × ℚ)) (k : ℕ),
      (∀ r ∈ rows, r.length = 15) →
      sposRows sp ((k : ℤ) - 1) rows =
        List.foldl flatStep sp (List.enumFrom (15 * k) rows.flatten) := by
  intro rows
  induction rows with
  | nil => intro sp k _; rfl
  | cons r rs ih =>
    intro sp k h
    have hr : r.length = 15 := h r (by simp)
    rw [List.flatten_cons, enumFrom_append_eq, List.foldl_append, hr]
    have h1 : rowSposAux (k : ℤ) sp 0 r =
        List.foldl flatStep sp (List.enumFrom (15 * k + 0) r) :=
      rowSposAux_eq_flat r sp k 0 (by omega)
    simp only [sposRows]
    have he : (k : ℤ) - 1 + 1 = (k : ℤ) := by ring
    rw [show 15 * k + 0 = 15 * k by omega] at h1
    rw [he, ← h1,
      show (k : ℤ) = ((k + 1 : ℕ) : ℤ) - 1 by push_cast; ring,
      show 15 * k + 15 = 15 * (k + 1) by ring]
    exact ih _ (k + 1) (fun r2 hr2 => h r2 (by simp [hr2]))

/-- A string of length 15 n splits into n raster rows of length 15 whose
concatenation is the string. -/
theorem chunk15_flatten :
    ∀ (n : ℕ) (s : List Char), s.length = 15 * n →
      (chunk15 n s).flatten = s ∧ (∀ r ∈ chunk15 n s, r.length = 15) := by
  intro n
  induction n with
  | zero =>
    intro s h
    have hs : s = [] := List.length_eq_zero.mp (by omega)
    subst hs
    exact ⟨rfl, by intro r hr; simp [chunk15] at hr⟩
  | succ n ih =>
    intro s h
    have h1 : (s.take 15).length = 15 := by
      rw [List.length_take]
      omega
    have h2 : (s.drop 15).length = 15 * n := by
      rw [List.length_drop]
      omega
    obtain ⟨hj, hl⟩ := ih (s.drop 15) h2
    constructor
    · simp [chunk15, List.flatten_cons, hj, List.take_append_drop]
    · intro r hr
      simp only [chunk15, List.mem_cons] at hr
      rcases hr with hr | hr
      · rw [hr]
        exact h1
      · exact hl r hr

/-- The tile loop silently consumes every character: whatever the length
of the remaining character list, each decoded tile lands in the
flattened grid, in order (no length validation, no error). -/
theorem foldl_initStep_flatten :
    ∀ (s : List Char) (i0 : ℕ) (st : InitState),
      (st.tiles ≠ [] ∨ i0 % 15 = 0) →
      (List.foldl initStep st (List.enumFrom i0 s)).tiles.flatten =
        st.tiles.flatten ++ s.map tileOfChar := by
  intro s
  induction s with
  | nil => intro i0 st _; simp
  | cons c cs ih =>
    intro i0 st h
    rw [show List.enumFrom i0 (c :: cs) =
        (i0, c) :: List.enumFrom (i0 + 1) cs from rfl, List.foldl_cons]
    by_cases h0 : i0 % 15 = 0
    · have ht : (initStep st (i0, c)).tiles =
          appendLast (st.tiles ++ [[]]) (tileOfChar c) := by
        simp [initStep, h0]
      have hne : (initStep st (i0, c)).tiles ≠ [] := by
        rw [ht]
        exact appendLast_ne_nil _ _ (by simp)
      rw [ih (i0 + 1) _ (Or.inl hne), ht,
        flatten_appendLast _ _ (by simp)]
      simp [List.append_assoc]
    · have hne0 : st.tiles ≠ [] := h.resolve_right h0
      have ht : (initStep st (i0, c)).tiles =
          appendLast st.tiles (tileOfChar c) := by
        simp [initStep, h0]
      have hne : (initStep st (i0, c)).tiles ≠ [] := by
        rw [ht]
        exact appendLast_ne_nil _ _ hne0
      rw [ih (i0 + 1) _ (Or.inl hne), ht, flatten_appendLast _ _ hne0]
      simp [List.append_assoc]

/-- Claim C5, amended: GameMap construction performs no length check at
all: for a tile sequence of any length it succeeds and decodes every
character into the raster grid in order (the last row short when the
length is not a multiple of 15); only a length of exactly 165 yields the
full 15 by 11 grid. -/
theorem claim_C5_amended (s : List Char) (slots : List (Option (ℤ × ℕ))) :
    ((mapInit s slots).tiles).flatten = s.map tileOfChar := by
  have h := foldl_initStep_flatten s 0
    ⟨[], List.replicate 10 ((0 : ℚ), (0 : ℚ)), -1, 0⟩ (Or.inr rfl)
  have he : (mapInit s slots).tiles =
      (List.foldl initStep ⟨[], List.replicate 10 ((0 : ℚ), (0 : ℚ)), -1, 0⟩
        (List.enumFrom 0 s)).tiles := rfl
  rw [he, h]
  simp

set_option maxRecDepth 4000 in
/-- Claim C5 fails as stated: constructing a map from a 164-character
tile sequence does not fail and does not stop early — it produces a
grid of ten full rows and a truncated 14-tile last row. -/
theorem claim_C5_counterexample :
    (mapInit bad164 PlaySetup.init).tiles.map List.length =
      List.replicate 10 15 ++ [14] := by
  decide

/-- Claim C8: for any 165-character tile sequence, the constructed grid
is exactly the 11 raster rows of width 15 decoded by the
floor/block/wall alphabet, and the players are exactly one per occupied
slot, placed at the center (ix + 0.5, iy + 0.5) of their spawn tile as
recorded by the digit characters. -/
theorem claim_C8 (s : List Char) (slots : List (Option (ℤ × ℕ)))
    (h : s.length = 165) :
    (mapInit s slots).tiles = tilesSpec s ∧
    (mapInit s slots).players = playersSpec s slots := by
  obtain ⟨hj, hl⟩ := chunk15_flatten 11 s (by omega)
  obtain ⟨colF, hF⟩ := foldRowsChar (chunk15 11 s) 0 []
    (List.replicate 10 ((0 : ℚ), (0 : ℚ))) (-1) 0 hl rfl
  rw [hj] at hF
  have hs : sposRows (List.replicate 10 ((0 : ℚ), (0 : ℚ))) (-1) (chunk15 11 s)
      = spawnSpec s := by
    have h2 := sposRows_eq_flat (chunk15 11 s)
      (List.replicate 10 ((0 : ℚ), (0 : ℚ))) 0 hl
    rw [hj, show ((0 : ℕ) : ℤ) - 1 = -1 by norm_num,
      show 15 * 0 = 0 by norm_num] at h2
    exact h2
  constructor
  · have he : (mapInit s slots).tiles =
        (List.foldl initStep ⟨[], List.replicate 10 ((0 : ℚ), (0 : ℚ)), -1, 0⟩
          (List.enumFrom 0 s)).tiles := rfl
    rw [he, hF]
    simp [tilesSpec]
  · have he : (mapInit s slots).players =
        playersFrom (List.foldl initStep
          ⟨[], List.replicate 10 ((0 : ℚ), (0 : ℚ)), -1, 0⟩
          (List.enumFrom 0 s)).spos slots := rfl
    rw [he, hF]
    dsimp only
    rw [hs]
    rfl

/-- Claim C8 witness: a concrete 165-character map string. -/
theorem claim_C8_witness :
    good165.length = 165 ∧
    ((mapInit good165 PlaySetup.init).tiles = tilesSpec good165 ∧
     (mapInit good165 PlaySetup.init).players = playersSpec good165 PlaySetup.init) :=
  ⟨rfl, claim_C8 good165 PlaySetup.init rfl⟩
